import Mathlib

/-!
Shallow embedding of the blockchain persistence and organization core in
`src/storage/postgresql_blockchain.cpp` (libbitcoin).  The SQL tables are
modelled as Lean lists of row structures; every SQL statement of the source
becomes a pure list transformation, executed in source order.  `cppdb`'s
`statement::row()` is modelled by `sql_row`: an empty result is an ordinary
value (callers test `empty()` or hit a fatal `get` on it), while a
multi-row result raises `multiple_rows_query`, modelled as `Except.error`.
C++ `size_t`/`uint32_t`/`uint64_t` arithmetic that can wrap is modelled with
explicit `% 2^w`; SQL-side arithmetic (inside UPDATE statements) is exact
integer arithmetic and is modelled on `Nat`/`Int`, with WHERE guards shown
at the call sites to keep `Nat` subtraction exact.
-/

namespace PgChain

/-- The `status` column: a string enum restricted to {'orphan','valid'}. -/
inductive Status where
  | orphan : Status
  | valid : Status
  deriving DecidableEq, Repr

/-- One row of the `blocks` table (the columns the core reads or writes). -/
structure BlockRow where
  block_id : Nat
  block_hash : Nat
  prev_block_hash : Nat
  prev_block_id : Option Nat
  version : Nat
  nonce : Nat
  merkle : Nat
  when_created : Nat
  bits_head : Nat
  bits_body : Nat
  space : Nat
  depth : Nat
  span_left : Nat
  span_right : Nat
  status : Status
  deriving DecidableEq, Repr

/-- One row of the `chains` table. -/
structure ChainRow where
  chain_id : Nat
  work : Int
  depth : Nat
  deriving DecidableEq, Repr

/-- One row of the `transactions` table. -/
structure TxRow where
  transaction_id : Nat
  transaction_hash : Nat
  version : Nat
  locktime : Nat
  deriving DecidableEq, Repr

/-- One row of the `transactions_parents` relation. -/
structure TxParentRow where
  block_id : Nat
  transaction_id : Nat
  index_in_block : Nat
  deriving DecidableEq, Repr

/-- One row of the `inputs` table. -/
structure InputRow where
  input_id : Nat
  transaction_id : Nat
  index_in_parent : Nat
  previous_output_hash : Nat
  previous_output_index : Nat
  script_id : Nat
  sequence : Nat
  deriving DecidableEq, Repr

/-- One row of the `outputs` table (`value` already passed through
`sql_to_internal`, i.e. integer satoshi). -/
structure OutputRow where
  output_id : Nat
  transaction_id : Nat
  index_in_parent : Nat
  value : Nat
  script_id : Nat
  deriving DecidableEq, Repr

/-- One row of the `operations` table. -/
structure OpRow where
  script_id : Nat
  operation_id : Nat
  opcode : Nat
  data : Option (List Nat)
  deriving DecidableEq, Repr

/-- The relational store visible to this core. -/
structure DB where
  blocks : List BlockRow
  chains : List ChainRow
  transactions : List TxRow
  transactions_parents : List TxParentRow
  inputs : List InputRow
  outputs : List OutputRow
  operations : List OpRow
  deriving DecidableEq, Repr

/-- In-memory script operation (`operation` in the message namespace). -/
structure Operation where
  opcode : Nat
  data : Option (List Nat)
  deriving DecidableEq, Repr

/-- In-memory script: ordered operation list. -/
abbrev Script := List Operation

/-- In-memory transaction input (`message::transaction_input`). -/
structure TransactionInput where
  hash : Nat
  index : Nat
  input_script : Script
  sequence : Nat
  deriving DecidableEq, Repr

/-- In-memory transaction output (`message::transaction_output`). -/
structure TransactionOutput where
  value : Nat
  output_script : Script
  deriving DecidableEq, Repr

/-- In-memory transaction (`message::transaction`). -/
structure Transaction where
  version : Nat
  locktime : Nat
  inputs : List TransactionInput
  outputs : List TransactionOutput
  deriving DecidableEq, Repr

/-- The `postgresql_block_info` struct handed to the validator. -/
structure BlockInfo where
  block_id : Nat
  depth : Nat
  span_left : Nat
  span_right : Nat
  prev_block_id : Nat
  deriving DecidableEq, Repr

/-- Truncation to 32 bits (`uint32_t` wrap-around). -/
def u32 (n : Nat) : Nat := n % 2 ^ 32

/-- C `size_t`/`uint64_t` subtraction `a - b` with 64-bit wrap-around
(for operands already below `2^64`). -/
def csub64 (a b : Nat) : Nat := (a % 2 ^ 64 + (2 ^ 64 - b % 2 ^ 64)) % 2 ^ 64

instance {ε α : Type} [DecidableEq ε] [DecidableEq α] : DecidableEq (Except ε α) :=
  fun x y =>
    match x, y with
    | .ok a, .ok b =>
        if h : a = b then isTrue (by rw [h])
        else isFalse (by intro hc; cases hc; exact h rfl)
    | .error a, .error b =>
        if h : a = b then isTrue (by rw [h])
        else isFalse (by intro hc; cases hc; exact h rfl)
    | .ok _, .error _ => isFalse (by intro hc; cases hc)
    | .error _, .ok _ => isFalse (by intro hc; cases hc)

/-- `cppdb::statement::row()`: an empty result is returned as `none`
(callers may test `empty()`); a result with more than one row raises
`multiple_rows_query`, modelled as `Except.error`. -/
def sql_row {α : Type} : List α → Except Unit (Option α)
  | [] => .ok none
  | [a] => .ok (some a)
  | _ :: _ :: _ => .error ()

/-! ## Organizer (`postgresql_organizer`) -/

/-- `delete_chains(left, right)`: delete the chain rows with
`chain_id BETWEEN left AND right`, then shift every `chain_id > right`
down by `(right + 1) - left`.  Call sites guarantee `left ≤ right + 1`,
so `Nat` subtraction is exact; the shifted ids satisfy
`chain_id > right ≥ offset - 1`, so the SQL-side subtraction never goes
negative. -/
def delete_chains (left right : Nat) (db : DB) : DB :=
  let remaining := db.chains.filter fun c => !(left ≤ c.chain_id && c.chain_id ≤ right)
  let offset := right + 1 - left
  { db with
    chains := remaining.map fun c =>
      if right < c.chain_id then { c with chain_id := c.chain_id - offset } else c }

/-- `unwind_chain(depth, chain_id)`: subtract from `chains.work` at
`chain_id` the summed `difficulty(bits_head, bits_body)` of the `valid`
blocks with `space = 0`, `depth ≥ depth` whose span contains `chain_id`.
SQL `SUM` over an empty set is NULL; the call sites exercised below always
have matching rows, and the empty sum is modelled as `0`. -/
def unwind_chain (diff : Nat → Nat → Int) (depth chain_id : Nat) (db : DB) : DB :=
  let total : Int :=
    (db.blocks.filter fun b =>
      b.space = 0 && depth ≤ b.depth && b.span_left ≤ chain_id &&
        chain_id ≤ b.span_right && b.status = Status.valid).foldr
      (fun b acc => diff b.bits_head b.bits_body + acc) 0
  { db with
    chains := db.chains.map fun c =>
      if c.chain_id = chain_id then { c with work := c.work - total } else c }

/-- `delete_branch(space, depth, span_left, span_right)`: look for a row at
`depth - 1` in the same space with exactly the given span; pick the chain
range and offset accordingly, delete the subtree's block rows, and shift
the surviving spans of the space down by the offset. -/
def delete_branch (diff : Nat → Nat → Int) (space depth span_left span_right : Nat)
    (db : DB) : DB :=
  let lonely := db.blocks.any fun b =>
    b.space = space && b.depth + 1 = depth && b.span_left = span_left &&
      b.span_right = span_right
  let offset := if lonely then span_right - span_left else span_right - span_left + 1
  let db1 :=
    if lonely then
      unwind_chain diff depth span_left (delete_chains (span_left + 1) span_right db)
    else
      delete_chains span_left span_right db
  let remaining := db1.blocks.filter fun b =>
    !(b.space = space && depth ≤ b.depth && span_left ≤ b.span_left &&
      b.span_right ≤ span_right)
  let adjusted_left := remaining.map fun b =>
    if b.space = space && span_right < b.span_left then
      { b with span_left := b.span_left - offset }
    else b
  let adjusted := adjusted_left.map fun b =>
    if b.space = space && span_right ≤ b.span_right then
      { b with span_right := b.span_right - offset }
    else b
  { db1 with blocks := adjusted }

/-- `UPDATE blocks SET prev_block_id=? WHERE block_id=?`. -/
def point_prev (parent_id child_id : Nat) (db : DB) : DB :=
  { db with
    blocks := db.blocks.map fun b =>
      if b.block_id = child_id then { b with prev_block_id := some parent_id } else b }

/-- `load_span(block_id)`: read `(span_left, span_right)` of one block row;
`none` models the empty-result `return false` path. -/
def load_span (db : DB) (block_id : Nat) : Except Unit (Option (Nat × Nat)) :=
  match sql_row (db.blocks.filter fun b => b.block_id = block_id) with
  | .error e => .error e
  | .ok none => .ok none
  | .ok (some b) => .ok (some (b.span_left, b.span_right))

/-- `load_position_info(block_id)`: read `(space, depth, span_left,
span_right)` of one block row. -/
def load_position_info (db : DB) (block_id : Nat) :
    Except Unit (Option (Nat × Nat × Nat × Nat)) :=
  match sql_row (db.blocks.filter fun b => b.block_id = block_id) with
  | .error e => .error e
  | .ok none => .ok none
  | .ok (some b) => .ok (some (b.space, b.depth, b.span_left, b.span_right))

/-- `get_block_width(space, depth, block_span)`. -/
def get_block_width (db : DB) (space depth left right : Nat) : Nat :=
  if left < right then right - left + 1
  else if db.blocks.any fun b =>
      b.space = space && depth < b.depth && left ≤ b.span_left &&
        b.span_right ≤ right then 1
  else 0

/-- The `tween_chains` insertion loop of `reserve_branch_area`: for each
`sub_chain` value, append copies of the rows currently at
`chain_id = parent_span_left` with `chain_id` shifted by `sub_chain`. -/
def tween_chains (parent_left : Nat) : List Nat → List ChainRow → List ChainRow
  | [], cs => cs
  | s :: rest, cs =>
      tween_chains parent_left rest
        (cs ++ (cs.filter fun c => c.chain_id = parent_left).map
          fun c => { c with chain_id := c.chain_id + s })

/-- `reserve_branch_area(parent_space, parent_width, parent_span,
new_child_depth, child_width)`. -/
def reserve_branch_area (parent_space parent_width parent_left parent_right
    new_child_depth child_width : Nat) (db : DB) : DB :=
  if parent_width = 0 && child_width = 1 then db
  else
    let blocks1 := db.blocks.map fun b =>
      if b.space = parent_space && parent_right < b.span_right then
        { b with span_right := b.span_right + child_width }
      else b
    let blocks2 := blocks1.map fun b =>
      if b.space = parent_space && parent_right < b.span_left then
        { b with span_left := b.span_left + child_width }
      else b
    let blocks3 := blocks2.map fun b =>
      if b.space = parent_space && b.depth < new_child_depth &&
          b.span_right = parent_right then
        { b with span_right := b.span_right + child_width }
      else b
    let db1 := { db with blocks := blocks3 }
    if parent_space ≠ 0 then db1
    else
      let chains1 := db1.chains.map fun c =>
        if parent_right < c.chain_id then { c with chain_id := c.chain_id + child_width }
        else c
      { db1 with
        chains := tween_chains parent_left
          (List.range' parent_width child_width) chains1 }

/-- `position_child_branch(old_space, new_space, new_depth, new_span_left)`:
move every row of `old_space` into `new_space`, shifting depth and span. -/
def position_child_branch (old_space new_space new_depth new_span_left : Nat)
    (db : DB) : DB :=
  { db with
    blocks := db.blocks.map fun b =>
      if b.space = old_space then
        { b with
          space := new_space
          depth := b.depth + new_depth
          span_left := b.span_left + new_span_left
          span_right := b.span_right + new_span_left }
      else b }

/-- The snapshot taken by `organize()`'s orphan/parent join: every
`(child.block_id, child.space, parent.block_id)` with
`child.prev_block_hash = parent.block_hash`, `child.space > 0` and
`child.depth = 0`.  The SQL row order is unspecified; one enumeration
order is fixed here. -/
def organize_pairs (db : DB) : List (Nat × Nat × Nat) :=
  db.blocks.flatMap fun b =>
    if 0 < b.space && b.depth = 0 then
      (db.blocks.filter fun p => p.block_hash = b.prev_block_hash).map
        fun p => (b.block_id, b.space, p.block_id)
    else []

/-- The body of `organize()`'s while loop over the snapshot.  A failed
`load_position_info`/`load_span` (empty result) is the source's early
`return`; a multi-row result propagates as an exception. -/
def organize_loop : List (Nat × Nat × Nat) → DB → Except Unit DB
  | [], db => .ok db
  | (child_id, child_space, parent_id) :: rest, db =>
      let db1 := point_prev parent_id child_id db
      match load_position_info db1 parent_id with
      | .error e => .error e
      | .ok none => .ok db1
      | .ok (some (parent_space, parent_depth, parent_left, parent_right)) =>
        match load_span db1 child_id with
        | .error e => .error e
        | .ok none => .ok db1
        | .ok (some (child_left, child_right)) =>
          let parent_width :=
            get_block_width db1 parent_space parent_depth parent_left parent_right
          let child_width := child_right - child_left + 1
          let new_child_span_left :=
            if 0 < parent_width then parent_right + 1 else parent_right
          let new_child_depth := parent_depth + 1
          let db2 := reserve_branch_area parent_space parent_width parent_left
            parent_right new_child_depth child_width db1
          let db3 := position_child_branch child_space parent_space new_child_depth
            new_child_span_left db2
          organize_loop rest db3

/-- `organize()`. -/
def organize (db : DB) : Except Unit DB := organize_loop (organize_pairs db) db

/-! ## Reader and validator (`postgresql_reader`, `postgresql_validate_block`) -/

/-- Insert into a list ordered by `le` (model of SQL `ORDER BY`; ties in
SQL have unspecified order, one deterministic order is fixed here). -/
def ordered_insert {α : Type} (le : α → α → Bool) (a : α) : List α → List α
  | [] => [a]
  | b :: l => if le a b then a :: b :: l else b :: ordered_insert le a l

/-- Sort a list by `le` (model of SQL `ORDER BY`). -/
def order_by {α : Type} (le : α → α → Bool) : List α → List α
  | [] => []
  | a :: l => ordered_insert le a (order_by le l)

/-- `select_script(script_id)`: operations of the script ordered by
`operation_id`. -/
def select_script (db : DB) (script_id : Nat) : Script :=
  (order_by (fun a b => a.operation_id ≤ b.operation_id)
      (db.operations.filter fun op => op.script_id = script_id)).map
    fun op => { opcode := op.opcode, data := op.data }

/-- The `null_hash` sentinel referenced by coinbase inputs (external
constant; its value is irrelevant to the claims, `0` is fixed). -/
def null_hash : Nat := 0

/-- Modelled from the spec: `is_coinbase` (defined in the repository's
`transaction.cpp`, which is not under `src/`): "the previous transaction is
a coinbase (no real inputs, detected via inspecting its inputs table)" — a
transaction all of whose inputs reference the null previous output, with at
least one input row. -/
def is_coinbase (tx : Transaction) : Bool :=
  !tx.inputs.isEmpty && tx.inputs.all fun i => i.hash = null_hash

/-- `is_coinbase_transaction(tx_id)`: rebuild a partial transaction from
the inputs table and test `is_coinbase`. -/
def is_coinbase_transaction (db : DB) (tx_id : Nat) : Bool :=
  is_coinbase
    { version := 0, locktime := 0, outputs := []
      inputs := (db.inputs.filter fun i => i.transaction_id = tx_id).map fun i =>
        { hash := i.previous_output_hash, index := i.previous_output_index,
          input_script := [], sequence := 0 } }

/-- `previous_block_depth(previous_tx_id)`: depth of the block containing
the transaction within the current branch.  An empty result hits
`result.get` on an empty row (fatal); a multi-row result raises
`multiple_rows_query`; both are `Except.error`. -/
def previous_block_depth (db : DB) (info : BlockInfo) (previous_tx_id : Nat) :
    Except Unit Nat := do
  let rows := (db.transactions_parents.filter
      fun tp => tp.transaction_id = previous_tx_id).flatMap fun tp =>
    (db.blocks.filter fun b =>
      b.block_id = tp.block_id && b.space = 0 &&
        b.span_left ≤ info.span_left && info.span_right ≤ b.span_right).map
      fun b => b.depth
  match ← sql_row rows with
  | none => .error ()
  | some d => .ok d

/-- `search_double_spends(transaction_id, input, input_index)`: is there
any other input row spending the same previous output? -/
def search_double_spends (db : DB) (transaction_id : Nat)
    (input : TransactionInput) (input_index : Nat) : Bool :=
  db.inputs.any fun i =>
    i.previous_output_hash = input.hash && i.previous_output_index = input.index &&
      (i.transaction_id ≠ transaction_id || i.index_in_parent ≠ input_index)

/-- `connect_input(transaction_id, current_tx, input_index, value_in)`.
The result pairs the returned `bool` with the final value of the by-ref
accumulator `value_in`; `run_script` is the external script interpreter
(`script::run`), `coinbase_maturity` and `max_money` the external consensus
constants from `constants.hpp`.  The `value_in += output_value` add is
64-bit and modelled with wrap-around; `previous_block_depth(...) -
block_info_.depth` is `size_t` subtraction, modelled by `csub64`. -/
def connect_input (run_script : Script → Script → Transaction → Nat → Bool)
    (coinbase_maturity max_money : Nat) (db : DB) (info : BlockInfo)
    (transaction_id : Nat) (current_tx : Transaction) (input_index : Nat)
    (value_in : Nat) : Except Unit (Bool × Nat) :=
  match current_tx.inputs[input_index]? with
  | none => .error ()
  | some input =>
    match sql_row (db.transactions.filter
        fun t => t.transaction_hash = input.hash) with
    | .error e => .error e
    | .ok none => .ok (false, value_in)
    | .ok (some previous_tx) =>
      let previous_tx_id := previous_tx.transaction_id
      match sql_row (db.outputs.filter fun o =>
          o.transaction_id = previous_tx_id && o.index_in_parent = input.index) with
      | .error e => .error e
      | .ok none => .ok (false, value_in)
      | .ok (some previous_output) =>
        let output_value := previous_output.value
        if max_money < output_value then .ok (false, value_in)
        else
          -- the source's straight-line sequence of early `return false`s,
          -- written as the equivalent if/else chain
          let rest : Unit → Except Unit (Bool × Nat) := fun _ =>
            if !run_script (select_script db previous_output.script_id)
                input.input_script current_tx input_index then
              .ok (false, value_in)
            else if search_double_spends db transaction_id input input_index then
              .ok (false, value_in)
            else
              let value_in' := (value_in + output_value) % 2 ^ 64
              if max_money < value_in' then .ok (false, value_in')
              else .ok (true, value_in')
          if is_coinbase_transaction db previous_tx_id then
            match previous_block_depth db info previous_tx_id with
            | .error e => .error e
            | .ok prev_depth =>
              if csub64 prev_depth info.depth < coinbase_maturity then
                .ok (false, value_in)
              else rest ()
          else rest ()

/-- The rows matched by `previous_block_bits()`'s query: blocks at
`depth - 1` within the same branch. -/
def previous_block_rows (db : DB) (info : BlockInfo) : List BlockRow :=
  db.blocks.filter fun b =>
    b.space = 0 && b.depth + 1 = info.depth &&
      b.span_left ≤ info.span_left && info.span_right ≤ b.span_right

/-- `previous_block_bits()`: `bits_head`,`bits_body` of the block at
`depth - 1` in the current branch, recombined as
`bits_body + (bits_head << 24)` in `uint32_t` arithmetic.  An empty or
multi-row result is fatal (`Except.error`). -/
def previous_block_bits (db : DB) (info : BlockInfo) : Except Unit Nat := do
  match ← sql_row (previous_block_rows db info) with
  | none => .error ()
  | some r => .ok (u32 (r.bits_body + u32 (r.bits_head * 2 ^ 24)))

/-- `median_offset` as computed by `median_time_past()`. -/
def median_offset (depth : Nat) : Nat := if depth < 11 then depth / 2 else 5

/-- `median_time_past()`: the `median_offset`-th timestamp (ascending by
`when_created`) of the branch-local blocks with `depth < info.depth` and
`depth ≥ info.depth - 11` (SQL signed arithmetic, i.e. `depth + 11 ≥
info.depth` on `Nat`).  `LIMIT 1 OFFSET k` yields at most one row; an
empty result hits a fatal `get`, modelled as `none`. -/
def median_time_past (db : DB) (info : BlockInfo) : Option Nat :=
  let rows := db.blocks.filter fun b =>
    b.space = 0 && b.depth < info.depth && info.depth ≤ b.depth + 11 &&
      b.span_left ≤ info.span_left && info.span_right ≤ b.span_right
  ((order_by (fun a b => a.when_created ≤ b.when_created) rows).map
    fun b => b.when_created)[median_offset info.depth]?

/-! ## Blockchain driver (`postgresql_blockchain`) -/

/-- `finalize_status(block_info, current_block)`: add the block's
difficulty to the chains spanned by it and set its depth, then mark the
block `valid`.  `current_block.bits` is the value reconstructed by
`read_block` (`bits_body + (bits_head << 24)` in `uint32_t`), re-split
here into head (`>> 24`) and body (`& 0x00ffffff`). -/
def finalize_status (diff : Nat → Nat → Int) (r : BlockRow) (db : DB) : DB :=
  let bits := u32 (r.bits_body + u32 (r.bits_head * 2 ^ 24))
  let bits_head := bits / 2 ^ 24
  let bits_body := bits % 2 ^ 24
  { db with
    chains := db.chains.map fun c =>
      if r.span_left ≤ c.chain_id && c.chain_id ≤ r.span_right then
        { c with work := c.work + diff bits_head bits_body, depth := r.depth }
      else c
    blocks := db.blocks.map fun b =>
      if b.block_id = r.block_id then { b with status := Status.valid } else b }

/-- The body of `validate()`'s loop over the snapshot of orphan space-0
blocks.  `decide_valid` abstracts the externally-defined
`validate_block::validates()` consensus decision; on failure the source
logs and `exit(-1)`s, modelled as stopping with the state written so
far. -/
def validate_loop (decide_valid : DB → BlockRow → Bool) (diff : Nat → Nat → Int) :
    List BlockRow → DB → DB
  | [], db => db
  | r :: rest, db =>
      if decide_valid db r then
        validate_loop decide_valid diff rest (finalize_status diff r db)
      else db

/-- `validate()`: snapshot of `status='orphan' AND space=0` rows ordered by
ascending depth, then the validation loop. -/
def validate (decide_valid : DB → BlockRow → Bool) (diff : Nat → Nat → Int)
    (db : DB) : DB :=
  validate_loop decide_valid diff
    (order_by (fun a b => a.depth ≤ b.depth)
      (db.blocks.filter fun b => b.status = Status.orphan && b.space = 0)) db

/-! ## Barrier / scheduler -/

/-- The barrier's mutable state: the arrival counter and the timer-armed
flag (`timeout_->cancel()` is modelled by clearing the flag: the pending
one-shot wait, if any, will fire with `operation_aborted`). -/
structure BarrierState where
  barrier_level : Nat
  timer_started : Bool
  deriving DecidableEq, Repr

/-- `barrier_clearance_level_` default set by the constructor. -/
def barrier_clearance_default : Nat := 400

/-- `barrier_timeout_` default in milliseconds set by the constructor. -/
def barrier_timeout_default_ms : Nat := 500

/-- `reset_state()`: cancel any timer, zero the counter, clear the armed
flag. -/
def reset_state : BarrierState := { barrier_level := 0, timer_started := false }

/-- `raise_barrier()`: the returned flag records whether `start()` was
invoked synchronously. -/
def raise_barrier (clearance : Nat) (s : BarrierState) : BarrierState × Bool :=
  let level := s.barrier_level + 1
  if clearance < level then (reset_state, true)
  else if !s.timer_started then
    ({ barrier_level := level, timer_started := true }, false)
  else ({ barrier_level := level, timer_started := s.timer_started }, false)

/-- `start_exec(ec)`: the timer completion handler; the returned flag
records whether `start()` ran (it does not when the wait was aborted by a
cancel, nor on another timer error). -/
def start_exec (aborted errored : Bool) (_s : BarrierState) : BarrierState × Bool :=
  (reset_state, !aborted && !errored)

/-- `n` consecutive `raise_barrier()` calls from the reset state, counting
how many times `start()` ran. -/
def raise_many (clearance : Nat) : Nat → BarrierState × Nat
  | 0 => (reset_state, 0)
  | n + 1 =>
      let (s, k) := raise_many clearance n
      let (s', started) := raise_barrier clearance s
      (s', k + if started then 1 else 0)

/-- The block columns never written by the organizer: everything except
the forest coordinates (`space`, `depth`, `span_left`, `span_right`) and
`prev_block_id`. -/
def same_core (r r' : BlockRow) : Prop :=
  r'.block_id = r.block_id ∧ r'.block_hash = r.block_hash ∧
  r'.prev_block_hash = r.prev_block_hash ∧ r'.version = r.version ∧
  r'.nonce = r.nonce ∧ r'.merkle = r.merkle ∧
  r'.when_created = r.when_created ∧ r'.bits_head = r.bits_head ∧
  r'.bits_body = r.bits_body ∧ r'.status = r.status

/-- How one organizer pass relates a block row to its rewrite: the core is
unchanged, the depth never decreases, and the space is unchanged unless
the depth strictly grew. -/
def org_step (r r' : BlockRow) : Prop :=
  same_core r r' ∧ r.depth ≤ r'.depth ∧
    ((r'.space = r.space ∧ r'.depth = r.depth) ∨ r.depth < r'.depth)

/-- The block columns never written by the validator: everything except
`status`. -/
def same_except_status (r r' : BlockRow) : Prop :=
  r'.block_id = r.block_id ∧ r'.block_hash = r.block_hash ∧
  r'.prev_block_hash = r.prev_block_hash ∧
  r'.prev_block_id = r.prev_block_id ∧ r'.version = r.version ∧
  r'.nonce = r.nonce ∧ r'.merkle = r.merkle ∧
  r'.when_created = r.when_created ∧ r'.bits_head = r.bits_head ∧
  r'.bits_body = r.bits_body ∧ r'.space = r.space ∧ r'.depth = r.depth ∧
  r'.span_left = r.span_left ∧ r'.span_right = r.span_right

/-! ## Claim-side definitions (refinement comparisons) -/

/-- Follows the claim's words (C5): the `min(5, depth/2)`-th row, ascending
by `when_created`, of the at most 11 branch blocks with depth strictly
below the validated block's depth and at least `depth - 11` (signed
comparison, i.e. `depth + 11 ≥ info.depth` on `Nat`). -/
def median_time_past_claimed (db : DB) (info : BlockInfo) : Option Nat :=
  let prior := db.blocks.filter fun b =>
    b.space = 0 && b.depth < info.depth && info.depth ≤ b.depth + 11 &&
      b.span_left ≤ info.span_left && info.span_right ≤ b.span_right
  ((order_by (fun a b => a.when_created ≤ b.when_created) prior).map
    fun b => b.when_created)[min 5 (info.depth / 2)]?

/-- Follows the claim's words (C3): the summed difficulty of the `valid`
blocks of the deleted subtree (same space, `depth ≥ depth`, span inside
`[span_left, span_right]`). -/
def deleted_subtree_difficulty (diff : Nat → Nat → Int)
    (space depth span_left span_right : Nat) (db : DB) : Int :=
  (db.blocks.filter fun b =>
    b.space = space && depth ≤ b.depth && span_left ≤ b.span_left &&
      b.span_right ≤ span_right && b.status = Status.valid).foldr
    (fun b acc => diff b.bits_head b.bits_body + acc) 0

/-! ## Concrete stores used by witnesses and counterexamples -/

/-- A main-tree leaf block `M` at the root of space 0. -/
def mainRow : BlockRow :=
  { block_id := 1, block_hash := 100, prev_block_hash := 99, prev_block_id := none,
    version := 1, nonce := 7, merkle := 3, when_created := 1000, bits_head := 29,
    bits_body := 65535, space := 0, depth := 0, span_left := 0, span_right := 0,
    status := Status.valid }

/-- A single-block orphan tree `O` whose `prev_block_hash` is `M`'s hash. -/
def orphanRow : BlockRow :=
  { block_id := 2, block_hash := 200, prev_block_hash := 100, prev_block_id := none,
    version := 1, nonce := 8, merkle := 4, when_created := 2000, bits_head := 29,
    bits_body := 65534, space := 1, depth := 0, span_left := 0, span_right := 0,
    status := Status.orphan }

/-- The scenario store: main tree `M` plus orphan tree `O`. -/
def graft_db : DB :=
  { blocks := [mainRow, orphanRow],
    chains := [{ chain_id := 0, work := 10, depth := 0 }],
    transactions := [], transactions_parents := [], inputs := [], outputs := [],
    operations := [] }

/-- What `organize` produces on `graft_db`: `O` grafted under `M`. -/
def graft_db_result : DB :=
  { graft_db with
    blocks := [mainRow,
      { orphanRow with prev_block_id := some 1, space := 0, depth := 1 }] }

/-! ## Concrete validator stores used by witnesses and counterexamples -/

/-- A script interpreter that accepts every input (the interpreter is an
external collaborator; the claims do not depend on its behaviour). -/
def pass_script : Script → Script → Transaction → Nat → Bool := fun _ _ _ _ => true

/-- The coinbase transaction sitting at depth 50 of the main chain. -/
def coinbaseTx : TxRow :=
  { transaction_id := 10, transaction_hash := 111, version := 1, locktime := 0 }

/-- The main-chain block at depth 50 containing the coinbase. -/
def coinbaseBlock : BlockRow :=
  { block_id := 5, block_hash := 500, prev_block_hash := 499, prev_block_id := none,
    version := 1, nonce := 0, merkle := 0, when_created := 0, bits_head := 29,
    bits_body := 1, space := 0, depth := 50, span_left := 0, span_right := 0,
    status := Status.valid }

/-- Store: a coinbase at depth 50 whose only output is referenced by the
block being validated at depth 100. -/
def maturity_db : DB :=
  { blocks := [coinbaseBlock],
    chains := [],
    transactions := [coinbaseTx],
    transactions_parents :=
      [{ block_id := 5, transaction_id := 10, index_in_block := 0 }],
    inputs := [{ input_id := 50, transaction_id := 10, index_in_parent := 0,
                 previous_output_hash := null_hash,
                 previous_output_index := 4294967295, script_id := 0,
                 sequence := 0 }],
    outputs := [{ output_id := 60, transaction_id := 10, index_in_parent := 0,
                  value := 50, script_id := 7 }],
    operations := [] }

/-- The validated block's position: depth 100 on the same branch. -/
def maturity_info : BlockInfo :=
  { block_id := 6, depth := 100, span_left := 0, span_right := 0,
    prev_block_id := 5 }

/-- The transaction spending the depth-50 coinbase inside the depth-100
block. -/
def spending_tx : Transaction :=
  { version := 1, locktime := 0,
    inputs := [{ hash := 111, index := 0, input_script := [], sequence := 0 }],
    outputs := [] }

/-- Store for the C7 witness: the referenced output's value 150 exceeds
`max_money = 100`, so the input is rejected with `value_in` untouched. -/
def money_db : DB :=
  { blocks := [], chains := [],
    transactions := [{ transaction_id := 30, transaction_hash := 400,
                       version := 1, locktime := 0 }],
    transactions_parents := [], inputs := [],
    outputs := [{ output_id := 80, transaction_id := 30, index_in_parent := 0,
                  value := 150, script_id := 9 }],
    operations := [] }

/-- The spending transaction for the C7 witness. -/
def money_tx : Transaction :=
  { version := 1, locktime := 0,
    inputs := [{ hash := 400, index := 0, input_script := [], sequence := 0 }],
    outputs := [] }

/-- Store for the C10 witness: a non-coinbase previous output of value 60
against `max_money = 100` with the accumulator already at 60, so the
accumulation check rejects after `value_in` was bumped to 120. -/
def overflow_db : DB :=
  { blocks := [], chains := [],
    transactions := [{ transaction_id := 20, transaction_hash := 300,
                       version := 1, locktime := 0 }],
    transactions_parents := [],
    inputs := [{ input_id := 90, transaction_id := 20, index_in_parent := 0,
                 previous_output_hash := 5, previous_output_index := 0,
                 script_id := 1, sequence := 0 }],
    outputs := [{ output_id := 70, transaction_id := 20, index_in_parent := 0,
                  value := 60, script_id := 9 }],
    operations := [] }

/-- The spending transaction for the C10 witness. -/
def overflow_tx : Transaction :=
  { version := 1, locktime := 0,
    inputs := [{ hash := 300, index := 0, input_script := [], sequence := 0 }],
    outputs := [] }

/-- A difficulty function assigning work 1 to every block (the SQL
`difficulty` function is an external stored procedure). -/
def unit_diff : Nat → Nat → Int := fun _ _ => 1

/-- A parent block spanning `[0,1]` with two child leaves (a fork). -/
def fork_parent : BlockRow :=
  { block_id := 1, block_hash := 10, prev_block_hash := 9, prev_block_id := none,
    version := 1, nonce := 0, merkle := 0, when_created := 0, bits_head := 0,
    bits_body := 0, space := 0, depth := 0, span_left := 0, span_right := 1,
    status := Status.valid }

/-- Left child leaf of the fork, span `[0,0]`. -/
def fork_left : BlockRow :=
  { fork_parent with
    block_id := 2, block_hash := 20, prev_block_hash := 10,
    depth := 1, span_left := 0, span_right := 0 }

/-- Right child leaf of the fork, span `[1,1]`. -/
def fork_right : BlockRow :=
  { fork_parent with
    block_id := 3, block_hash := 30, prev_block_hash := 10,
    depth := 1, span_left := 1, span_right := 1 }

/-- The fork store with chains 0 and 1. -/
def fork_db : DB :=
  { blocks := [fork_parent, fork_left, fork_right],
    chains := [{ chain_id := 0, work := 10, depth := 1 },
               { chain_id := 1, work := 10, depth := 1 }],
    transactions := [], transactions_parents := [], inputs := [], outputs := [],
    operations := [] }

/-! ## List relation helpers -/

theorem forall2_comp {α β γ : Type} {R : α → β → Prop} {S : β → γ → Prop}
    {T : α → γ → Prop} (h : ∀ a b c, R a b → S b c → T a c) :
    ∀ {l1 : List α} {l2 : List β} {l3 : List γ},
      List.Forall₂ R l1 l2 → List.Forall₂ S l2 l3 → List.Forall₂ T l1 l3 := by
  intro l1 l2 l3 h12
  induction h12 generalizing l3 with
  | nil => intro h23; cases h23; constructor
  | cons hab _ ih =>
    intro h23
    cases h23 with
    | cons hbc h23' => exact List.Forall₂.cons (h _ _ _ hab hbc) (ih h23')

theorem forall2_map_self {α : Type} {R : α → α → Prop} (f : α → α)
    (hf : ∀ a, R a (f a)) : ∀ l : List α, List.Forall₂ R l (l.map f)
  | [] => List.Forall₂.nil
  | a :: l => List.Forall₂.cons (hf a) (forall2_map_self f hf l)

theorem forall2_mem_right {α β : Type} {R : α → β → Prop} {l : List α}
    {l' : List β} (h : List.Forall₂ R l l') {b : β} (hb : b ∈ l') :
    ∃ a ∈ l, R a b := by
  induction h with
  | nil => cases hb
  | cons hab _ ih =>
    rcases List.mem_cons.mp hb with rfl | hb'
    · exact ⟨_, List.mem_cons_self _ _, hab⟩
    · obtain ⟨a, ha, hr⟩ := ih hb'
      exact ⟨a, List.mem_cons_of_mem _ ha, hr⟩

theorem filter_key_single {α β : Type} [DecidableEq β] (f : α → β) :
    ∀ (l : List α), (l.map f).Nodup → ∀ a ∈ l,
      l.filter (fun x => f x = f a) = [a] := by
  intro l
  induction l with
  | nil => intro _ a ha; cases ha
  | cons h t ih =>
    intro hnd a ha
    simp only [List.map_cons, List.nodup_cons] at hnd
    rcases List.mem_cons.mp ha with rfl | hat
    · rw [List.filter_cons_of_pos (by simp)]
      have ht : t.filter (fun x => f x = f a) = [] := by
        rw [List.filter_eq_nil_iff]
        intro x hx
        simp only [decide_eq_true_eq]
        intro hfx
        exact hnd.1 (hfx ▸ List.mem_map_of_mem f hx)
      rw [ht]
    · have hne : ¬ (f h = f a) := by
        intro he
        have : f a ∈ t.map f := List.mem_map_of_mem f hat
        rw [← he] at this
        exact hnd.1 this
      rw [List.filter_cons_of_neg (by simpa using hne)]
      exact ih hnd.2 a hat

/-! ## Organizer step relations -/

theorem same_core_of_eq {r r' : BlockRow} (h : r' = r) : same_core r r' := by
  subst h
  exact ⟨rfl, rfl, rfl, rfl, rfl, rfl, rfl, rfl, rfl, rfl⟩

theorem org_step_refl (r : BlockRow) : org_step r r :=
  ⟨same_core_of_eq rfl, Nat.le_refl _, Or.inl ⟨rfl, rfl⟩⟩

theorem org_step_trans {r s t : BlockRow} (h1 : org_step r s)
    (h2 : org_step s t) : org_step r t := by
  obtain ⟨c1, d1, e1⟩ := h1
  obtain ⟨c2, d2, e2⟩ := h2
  refine ⟨?_, Nat.le_trans d1 d2, ?_⟩
  · obtain ⟨a1, a2, a3, a4, a5, a6, a7, a8, a9, a10⟩ := c1
    obtain ⟨b1, b2, b3, b4, b5, b6, b7, b8, b9, b10⟩ := c2
    exact ⟨b1.trans a1, b2.trans a2, b3.trans a3, b4.trans a4, b5.trans a5,
      b6.trans a6, b7.trans a7, b8.trans a8, b9.trans a9, b10.trans a10⟩
  · rcases e1 with ⟨hs1, hd1⟩ | hlt1
    · rcases e2 with ⟨hs2, hd2⟩ | hlt2
      · exact Or.inl ⟨hs2.trans hs1, hd2.trans hd1⟩
      · exact Or.inr (hd1 ▸ hlt2)
    · exact Or.inr (Nat.lt_of_lt_of_le hlt1 d2)

theorem forall2_org_trans {l1 l2 l3 : List BlockRow}
    (h12 : List.Forall₂ org_step l1 l2) (h23 : List.Forall₂ org_step l2 l3) :
    List.Forall₂ org_step l1 l3 :=
  @forall2_comp BlockRow BlockRow BlockRow org_step org_step org_step
    (fun _ _ _ h1 h2 => org_step_trans h1 h2) l1 l2 l3 h12 h23

theorem org_step_point_prev (p c : Nat) (b : BlockRow) :
    org_step b (if b.block_id = c then { b with prev_block_id := some p }
      else b) := by
  split
  · exact ⟨⟨rfl, rfl, rfl, rfl, rfl, rfl, rfl, rfl, rfl, rfl⟩, Nat.le_refl _,
      Or.inl ⟨rfl, rfl⟩⟩
  · exact org_step_refl b

theorem org_rel_point_prev (p c : Nat) (db : DB) :
    List.Forall₂ org_step db.blocks (point_prev p c db).blocks :=
  forall2_map_self _ (org_step_point_prev p c) db.blocks

theorem org_rel_reserve (ps pw pl pr nd cw : Nat) (db : DB) :
    List.Forall₂ org_step db.blocks
      (reserve_branch_area ps pw pl pr nd cw db).blocks := by
  have hstep : ∀ (q : BlockRow → Bool) (g : BlockRow → BlockRow)
      (hg : ∀ b, same_core b (g b) ∧ (g b).space = b.space ∧
        (g b).depth = b.depth) (l : List BlockRow),
      List.Forall₂ org_step l (l.map fun b => if q b then g b else b) := by
    intro q g hg l
    refine forall2_map_self _ (fun b => ?_) l
    split
    · exact ⟨(hg b).1, Nat.le_of_eq (hg b).2.2.symm, Or.inl (hg b).2⟩
    · exact org_step_refl b
  unfold reserve_branch_area
  split
  · exact (List.forall₂_same).mpr fun x _ => org_step_refl x
  · have h1 := hstep
      (fun b => b.space = ps && pr < b.span_right)
      (fun b => { b with span_right := b.span_right + cw })
      (fun b => ⟨⟨rfl, rfl, rfl, rfl, rfl, rfl, rfl, rfl, rfl, rfl⟩, rfl, rfl⟩)
      db.blocks
    have h2 := hstep
      (fun b => b.space = ps && pr < b.span_left)
      (fun b => { b with span_left := b.span_left + cw })
      (fun b => ⟨⟨rfl, rfl, rfl, rfl, rfl, rfl, rfl, rfl, rfl, rfl⟩, rfl, rfl⟩)
      (db.blocks.map fun b =>
        if b.space = ps && pr < b.span_right then
          { b with span_right := b.span_right + cw } else b)
    have h3 := hstep
      (fun b => b.space = ps && b.depth < nd && b.span_right = pr)
      (fun b => { b with span_right := b.span_right + cw })
      (fun b => ⟨⟨rfl, rfl, rfl, rfl, rfl, rfl, rfl, rfl, rfl, rfl⟩, rfl, rfl⟩)
      ((db.blocks.map fun b =>
        if b.space = ps && pr < b.span_right then
          { b with span_right := b.span_right + cw } else b).map fun b =>
        if b.space = ps && pr < b.span_left then
          { b with span_left := b.span_left + cw } else b)
    have h12 := forall2_org_trans h1 h2
    have h123 := forall2_org_trans h12 h3
    split <;> exact h123

theorem org_rel_position (old new nd nl : Nat) (hnd : 0 < nd) (db : DB) :
    List.Forall₂ org_step db.blocks
      (position_child_branch old new nd nl db).blocks := by
  refine forall2_map_self _ (fun b => ?_) db.blocks
  split
  · refine ⟨⟨rfl, rfl, rfl, rfl, rfl, rfl, rfl, rfl, rfl, rfl⟩, ?_, Or.inr ?_⟩
    · show b.depth ≤ b.depth + nd
      omega
    · show b.depth < b.depth + nd
      omega
  · exact org_step_refl b

/-- Every run of the organizer loop relates the block rows pointwise by
`org_step` (the loop never inserts or deletes block rows). -/
theorem organize_loop_org_step :
    ∀ (ps : List (Nat × Nat × Nat)) (db db' : DB),
      organize_loop ps db = .ok db' →
      List.Forall₂ org_step db.blocks db'.blocks := by
  intro ps
  induction ps with
  | nil =>
    intro db db' h
    cases h
    exact (List.forall₂_same).mpr fun x _ => org_step_refl x
  | cons hd rest ih =>
    intro db db' h
    obtain ⟨c, cs, p⟩ := hd
    simp only [organize_loop] at h
    match h1 : load_position_info (point_prev p c db) p with
    | .error e => rw [h1] at h; cases h
    | .ok none =>
      rw [h1] at h
      cases h
      exact org_rel_point_prev p c db
    | .ok (some (ps_, pd, pl, pr)) =>
      rw [h1] at h
      match h2 : load_span (point_prev p c db) c with
      | .error e => rw [h2] at h; cases h
      | .ok none =>
        rw [h2] at h
        cases h
        exact org_rel_point_prev p c db
      | .ok (some (cl, cr)) =>
        rw [h2] at h
        have hrest := ih _ _ h
        exact forall2_org_trans
          (forall2_org_trans
            (forall2_org_trans (org_rel_point_prev p c db)
              (org_rel_reserve _ _ _ _ _ _ _))
            (org_rel_position _ _ _ _ (Nat.succ_pos pd) _))
          hrest

theorem forall2_conj {α β : Type} {R S : α → β → Prop} :
    ∀ {l : List α} {l' : List β}, List.Forall₂ R l l' → List.Forall₂ S l l' →
      List.Forall₂ (fun a b => R a b ∧ S a b) l l' := by
  intro l l' h1
  induction h1 with
  | nil => intro h2; cases h2; constructor
  | cons hab _ ih =>
    intro h2
    cases h2 with
    | cons hab2 h2' => exact List.Forall₂.cons ⟨hab, hab2⟩ (ih h2')

theorem forall2_mem_left {α β : Type} {R : α → β → Prop} {l : List α}
    {l' : List β} (h : List.Forall₂ R l l') {a : α} (ha : a ∈ l) :
    ∃ b ∈ l', R a b := by
  induction h with
  | nil => cases ha
  | cons hab _ ih =>
    rcases List.mem_cons.mp ha with rfl | ha'
    · exact ⟨_, List.mem_cons_self _ _, hab⟩
    · obtain ⟨b, hb, hr⟩ := ih ha'
      exact ⟨b, List.mem_cons_of_mem _ hb, hr⟩

/-- `load_position_info` only reports an empty result when no block row
carries the requested id. -/
theorem load_position_info_ok_none {db : DB} {x : Nat}
    (hmem : ∃ b ∈ db.blocks, b.block_id = x) :
    load_position_info db x ≠ .ok none := by
  obtain ⟨b, hb, hid⟩ := hmem
  intro h
  unfold load_position_info at h
  match hf : db.blocks.filter (fun r => r.block_id = x) with
  | [] =>
    rw [List.filter_eq_nil_iff] at hf
    exact hf b hb (by simp [hid])
  | [a] => rw [hf] at h; simp [sql_row] at h
  | a :: c :: t => rw [hf] at h; simp [sql_row] at h

/-- `load_span` only reports an empty result when no block row carries the
requested id. -/
theorem load_span_ok_none {db : DB} {x : Nat}
    (hmem : ∃ b ∈ db.blocks, b.block_id = x) :
    load_span db x ≠ .ok none := by
  obtain ⟨b, hb, hid⟩ := hmem
  intro h
  unfold load_span at h
  match hf : db.blocks.filter (fun r => r.block_id = x) with
  | [] =>
    rw [List.filter_eq_nil_iff] at hf
    exact hf b hb (by simp [hid])
  | [a] => rw [hf] at h; simp [sql_row] at h
  | a :: c :: t => rw [hf] at h; simp [sql_row] at h

theorem keep_point_prev (p c : Nat) (db : DB) :
    List.Forall₂ (fun b b' => same_core b b' ∧ b'.space = b.space ∧
      b'.depth = b.depth) db.blocks (point_prev p c db).blocks := by
  refine forall2_map_self _ (fun b => ?_) db.blocks
  split
  · exact ⟨⟨rfl, rfl, rfl, rfl, rfl, rfl, rfl, rfl, rfl, rfl⟩, rfl, rfl⟩
  · exact ⟨same_core_of_eq rfl, rfl, rfl⟩

theorem keep_reserve (ps pw pl pr nd cw : Nat) (db : DB) :
    List.Forall₂ (fun b b' => same_core b b' ∧ b'.space = b.space ∧
      b'.depth = b.depth) db.blocks
      (reserve_branch_area ps pw pl pr nd cw db).blocks := by
  have htrans : ∀ (l1 l2 l3 : List BlockRow),
      List.Forall₂ (fun b b' => same_core b b' ∧ b'.space = b.space ∧
        b'.depth = b.depth) l1 l2 →
      List.Forall₂ (fun b b' => same_core b b' ∧ b'.space = b.space ∧
        b'.depth = b.depth) l2 l3 →
      List.Forall₂ (fun b b' => same_core b b' ∧ b'.space = b.space ∧
        b'.depth = b.depth) l1 l3 := by
    intro l1 l2 l3 h12 h23
    refine forall2_comp ?_ h12 h23
    intro a b c ⟨hc1, hs1, hd1⟩ ⟨hc2, hs2, hd2⟩
    obtain ⟨a1, a2, a3, a4, a5, a6, a7, a8, a9, a10⟩ := hc1
    obtain ⟨b1, b2, b3, b4, b5, b6, b7, b8, b9, b10⟩ := hc2
    exact ⟨⟨b1.trans a1, b2.trans a2, b3.trans a3, b4.trans a4, b5.trans a5,
      b6.trans a6, b7.trans a7, b8.trans a8, b9.trans a9, b10.trans a10⟩,
      hs2.trans hs1, hd2.trans hd1⟩
  have hstep : ∀ (q : BlockRow → Bool) (g : BlockRow → BlockRow)
      (hg : ∀ b, same_core b (g b) ∧ (g b).space = b.space ∧
        (g b).depth = b.depth) (l : List BlockRow),
      List.Forall₂ (fun b b' => same_core b b' ∧ b'.space = b.space ∧
        b'.depth = b.depth) l (l.map fun b => if q b then g b else b) := by
    intro q g hg l
    refine forall2_map_self _ (fun b => ?_) l
    split
    · exact hg b
    · exact ⟨same_core_of_eq rfl, rfl, rfl⟩
  unfold reserve_branch_area
  split
  · exact (List.forall₂_same).mpr fun x _ =>
      ⟨same_core_of_eq rfl, rfl, rfl⟩
  · have h1 := hstep
      (fun b => b.space = ps && pr < b.span_right)
      (fun b => { b with span_right := b.span_right + cw })
      (fun b => ⟨⟨rfl, rfl, rfl, rfl, rfl, rfl, rfl, rfl, rfl, rfl⟩, rfl, rfl⟩)
      db.blocks
    have h2 := hstep
      (fun b => b.space = ps && pr < b.span_left)
      (fun b => { b with span_left := b.span_left + cw })
      (fun b => ⟨⟨rfl, rfl, rfl, rfl, rfl, rfl, rfl, rfl, rfl, rfl⟩, rfl, rfl⟩)
      (db.blocks.map fun b =>
        if b.space = ps && pr < b.span_right then
          { b with span_right := b.span_right + cw } else b)
    have h3 := hstep
      (fun b => b.space = ps && b.depth < nd && b.span_right = pr)
      (fun b => { b with span_right := b.span_right + cw })
      (fun b => ⟨⟨rfl, rfl, rfl, rfl, rfl, rfl, rfl, rfl, rfl, rfl⟩, rfl, rfl⟩)
      ((db.blocks.map fun b =>
        if b.space = ps && pr < b.span_right then
          { b with span_right := b.span_right + cw } else b).map fun b =>
        if b.space = ps && pr < b.span_left then
          { b with span_left := b.span_left + cw } else b)
    split <;> exact htrans _ _ _ (htrans _ _ _ h1 h2) h3

theorem position_step_rel (old new nd nl : Nat) (db : DB) :
    List.Forall₂ (fun b b' => b'.block_id = b.block_id ∧
      (b.space = old → b'.depth = b.depth + nd) ∧
      (b.space ≠ old → b' = b))
      db.blocks (position_child_branch old new nd nl db).blocks := by
  refine forall2_map_self _ (fun b => ?_) db.blocks
  by_cases h : b.space = old
  · rw [if_pos h]
    exact ⟨rfl, fun _ => rfl, fun hne => absurd h hne⟩
  · rw [if_neg h]
    exact ⟨rfl, fun hc => absurd hc h, fun _ => rfl⟩

/-- In one grafting step the child space's rows strictly gain depth while
every other row keeps its space and depth (and every row its id). -/
theorem graft_step_rel (p c cs ps_ pw pl pr pd nl cw : Nat) (db : DB) :
    List.Forall₂ (fun b b3 => b3.block_id = b.block_id ∧
      (b.space = cs → b.depth < b3.depth) ∧
      (b.space ≠ cs → b3.space = b.space ∧ b3.depth = b.depth))
      db.blocks
      (position_child_branch cs ps_ (pd + 1) nl
        (reserve_branch_area ps_ pw pl pr (pd + 1) cw
          (point_prev p c db))).blocks := by
  have hkeep : List.Forall₂ (fun b b' => same_core b b' ∧ b'.space = b.space ∧
      b'.depth = b.depth) db.blocks
      (reserve_branch_area ps_ pw pl pr (pd + 1) cw
        (point_prev p c db)).blocks := by
    refine forall2_comp ?_ (keep_point_prev p c db)
      (keep_reserve ps_ pw pl pr (pd + 1) cw (point_prev p c db))
    intro a b c2 ⟨hc1, hs1, hd1⟩ ⟨hc2, hs2, hd2⟩
    obtain ⟨a1, a2, a3, a4, a5, a6, a7, a8, a9, a10⟩ := hc1
    obtain ⟨b1, b2, b3, b4, b5, b6, b7, b8, b9, b10⟩ := hc2
    exact ⟨⟨b1.trans a1, b2.trans a2, b3.trans a3, b4.trans a4, b5.trans a5,
      b6.trans a6, b7.trans a7, b8.trans a8, b9.trans a9, b10.trans a10⟩,
      hs2.trans hs1, hd2.trans hd1⟩
  refine forall2_comp ?_ hkeep
    (position_step_rel cs ps_ (pd + 1) nl
      (reserve_branch_area ps_ pw pl pr (pd + 1) cw (point_prev p c db)))
  intro a b2 b3 ⟨hcore, hs, hd⟩ ⟨hid3, hpos1, hpos2⟩
  refine ⟨hid3.trans hcore.1, ?_, ?_⟩
  · intro hsa
    have h1 : b3.depth = b2.depth + (pd + 1) := hpos1 (by rw [hs, hsa])
    omega
  · intro hne
    have h2 : b3 = b2 := hpos2 (by rw [hs]; exact hne)
    rw [h2, hs, hd]
    exact ⟨rfl, rfl⟩

/-- Every orphan-root/parent pair in the work list gets its child row's
depth strictly increased by the time the organizer loop finishes
successfully (the child row is identified by its snapshot id and space). -/
theorem organize_loop_bumps :
    ∀ (ps : List (Nat × Nat × Nat)) (db db' : DB),
      (∀ t ∈ ps, (∃ b ∈ db.blocks, b.block_id = t.1) ∧
        (∃ b ∈ db.blocks, b.block_id = t.2.2)) →
      organize_loop ps db = .ok db' →
      List.Forall₂ (fun r r' =>
        (∃ q, (r.block_id, r.space, q) ∈ ps) → r.depth < r'.depth)
        db.blocks db'.blocks := by
  intro ps
  induction ps with
  | nil =>
    intro db db' _ h
    cases h
    exact (List.forall₂_same).mpr fun x _ ⟨q, hq⟩ =>
      absurd hq (List.not_mem_nil _)
  | cons hd rest ih =>
    intro db db' hids h
    obtain ⟨c, cs, p⟩ := hd
    simp only [organize_loop] at h
    have hpm : ∃ b ∈ (point_prev p c db).blocks, b.block_id = p := by
      obtain ⟨b, hb, hid⟩ := (hids (c, cs, p) (List.mem_cons_self _ _)).2
      obtain ⟨b', hb', hrel⟩ := forall2_mem_left (keep_point_prev p c db) hb
      exact ⟨b', hb', hrel.1.1.trans hid⟩
    have hcm : ∃ b ∈ (point_prev p c db).blocks, b.block_id = c := by
      obtain ⟨b, hb, hid⟩ := (hids (c, cs, p) (List.mem_cons_self _ _)).1
      obtain ⟨b', hb', hrel⟩ := forall2_mem_left (keep_point_prev p c db) hb
      exact ⟨b', hb', hrel.1.1.trans hid⟩
    match h1 : load_position_info (point_prev p c db) p with
    | .error e => rw [h1] at h; cases h
    | .ok none => exact absurd h1 (load_position_info_ok_none hpm)
    | .ok (some (ps_, pd, pl, pr)) =>
      rw [h1] at h
      match h2 : load_span (point_prev p c db) c with
      | .error e => rw [h2] at h; cases h
      | .ok none => exact absurd h2 (load_span_ok_none hcm)
      | .ok (some (cl, cr)) =>
        rw [h2] at h
        have hstep3 := graft_step_rel p c cs ps_
          (get_block_width (point_prev p c db) ps_ pd pl pr) pl pr pd
          (if 0 < get_block_width (point_prev p c db) ps_ pd pl pr then pr + 1
            else pr) (cr - cl + 1) db
        have hids3 : ∀ t ∈ rest,
            (∃ b ∈ (position_child_branch cs ps_ (pd + 1)
                (if 0 < get_block_width (point_prev p c db) ps_ pd pl pr then
                  pr + 1 else pr)
                (reserve_branch_area ps_
                  (get_block_width (point_prev p c db) ps_ pd pl pr) pl pr
                  (pd + 1) (cr - cl + 1) (point_prev p c db))).blocks,
              b.block_id = t.1) ∧
            (∃ b ∈ (position_child_branch cs ps_ (pd + 1)
                (if 0 < get_block_width (point_prev p c db) ps_ pd pl pr then
                  pr + 1 else pr)
                (reserve_branch_area ps_
                  (get_block_width (point_prev p c db) ps_ pd pl pr) pl pr
                  (pd + 1) (cr - cl + 1) (point_prev p c db))).blocks,
              b.block_id = t.2.2) := by
          intro t ht
          constructor
          · obtain ⟨b, hb, hid⟩ := (hids t (List.mem_cons_of_mem _ ht)).1
            obtain ⟨b3, hb3, hrel⟩ := forall2_mem_left hstep3 hb
            exact ⟨b3, hb3, hrel.1.trans hid⟩
          · obtain ⟨b, hb, hid⟩ := (hids t (List.mem_cons_of_mem _ ht)).2
            obtain ⟨b3, hb3, hrel⟩ := forall2_mem_left hstep3 hb
            exact ⟨b3, hb3, hrel.1.trans hid⟩
        have hih := ih _ db' hids3 h
        have horg := organize_loop_org_step rest _ db' h
        have hcomb := forall2_conj hih horg
        refine forall2_comp ?_ hstep3 hcomb
        intro a b3 r' hab3 hb3r hex
        obtain ⟨hid, hlt, hkeep⟩ := hab3
        obtain ⟨hihrel, hstep_r⟩ := hb3r
        obtain ⟨q, hq⟩ := hex
        rcases List.mem_cons.mp hq with heq | hqrest
        · have heq' := heq
          simp only [Prod.mk.injEq] at heq'
          exact Nat.lt_of_lt_of_le (hlt heq'.2.1) hstep_r.2.1
        · by_cases hsa : a.space = cs
          · exact Nat.lt_of_lt_of_le (hlt hsa) hstep_r.2.1
          · obtain ⟨hs3, hd3⟩ := hkeep hsa
            have hlt3 : b3.depth < r'.depth :=
              hihrel ⟨q, by rw [hid, hs3]; exact hqrest⟩
            omega

theorem ses_refl (r : BlockRow) : same_except_status r r :=
  ⟨rfl, rfl, rfl, rfl, rfl, rfl, rfl, rfl, rfl, rfl, rfl, rfl, rfl, rfl⟩

theorem ses_trans {r s t : BlockRow} (h1 : same_except_status r s)
    (h2 : same_except_status s t) : same_except_status r t := by
  obtain ⟨a1, a2, a3, a4, a5, a6, a7, a8, a9, a10, a11, a12, a13, a14⟩ := h1
  obtain ⟨b1, b2, b3, b4, b5, b6, b7, b8, b9, b10, b11, b12, b13, b14⟩ := h2
  exact ⟨b1.trans a1, b2.trans a2, b3.trans a3, b4.trans a4, b5.trans a5,
    b6.trans a6, b7.trans a7, b8.trans a8, b9.trans a9, b10.trans a10,
    b11.trans a11, b12.trans a12, b13.trans a13, b14.trans a14⟩

theorem forall2_ses_trans {l1 l2 l3 : List BlockRow}
    (h12 : List.Forall₂ same_except_status l1 l2)
    (h23 : List.Forall₂ same_except_status l2 l3) :
    List.Forall₂ same_except_status l1 l3 :=
  @forall2_comp BlockRow BlockRow BlockRow same_except_status
    same_except_status same_except_status
    (fun _ _ _ h1 h2 => ses_trans h1 h2) l1 l2 l3 h12 h23

theorem finalize_status_frame (diff : Nat → Nat → Int) (r : BlockRow)
    (db : DB) : List.Forall₂ same_except_status db.blocks
      (finalize_status diff r db).blocks := by
  refine forall2_map_self _ (fun b => ?_) db.blocks
  split
  · exact ⟨rfl, rfl, rfl, rfl, rfl, rfl, rfl, rfl, rfl, rfl, rfl, rfl, rfl,
      rfl⟩
  · exact ses_refl b

/-- The validator loop touches only the `status` column of block rows. -/
theorem validate_loop_frame (dec : DB → BlockRow → Bool)
    (diff : Nat → Nat → Int) :
    ∀ (rows : List BlockRow) (db : DB),
      List.Forall₂ same_except_status db.blocks
        (validate_loop dec diff rows db).blocks := by
  intro rows
  induction rows with
  | nil => intro db; exact (List.forall₂_same).mpr fun x _ => ses_refl x
  | cons r rest ih =>
    intro db
    simp only [validate_loop]
    split
    · exact forall2_ses_trans
        (finalize_status_frame diff r db) (ih (finalize_status diff r db))
    · exact (List.forall₂_same).mpr fun x _ => ses_refl x

/-! ## Claim C1: organize leaves no matched orphan roots -/

/-- Claim C1: after a successful `organize()` run, no block row has
`space > 0`, `depth = 0` and a parent row whose `block_hash` equals the
row's `prev_block_hash` — every orphan-tree root whose parent is present
has been grafted. -/
theorem organize_grafts_matched_orphan_roots :
    ∀ (db db' : DB), organize db = .ok db' →
      ∀ r' ∈ db'.blocks, 0 < r'.space → r'.depth = 0 →
        ∀ p' ∈ db'.blocks, p'.block_hash ≠ r'.prev_block_hash := by
  intro db db' h r' hr' hspace hdepth p' hp' hhash
  have hids : ∀ t ∈ organize_pairs db,
      (∃ b ∈ db.blocks, b.block_id = t.1) ∧
      (∃ b ∈ db.blocks, b.block_id = t.2.2) := by
    intro t ht
    simp only [organize_pairs, List.mem_flatMap] at ht
    obtain ⟨b, hb, htb⟩ := ht
    by_cases hcond : (0 < b.space && b.depth = 0) = true
    · rw [if_pos hcond] at htb
      simp only [List.mem_map] at htb
      obtain ⟨pp, hpp, rfl⟩ := htb
      exact ⟨⟨b, hb, rfl⟩, ⟨pp, (List.mem_filter.mp hpp).1, rfl⟩⟩
    · rw [if_neg hcond] at htb
      cases htb
  have horg := organize_loop_org_step (organize_pairs db) db db' h
  have hbump := organize_loop_bumps (organize_pairs db) db db' hids h
  have hcomb := forall2_conj horg hbump
  obtain ⟨r, hr, hstep_r, hbump_r⟩ := forall2_mem_right hcomb hr'
  obtain ⟨p0, hp0, hstep_p, _⟩ := forall2_mem_right hcomb hp'
  obtain ⟨hcore_r, hdle, hdich⟩ := hstep_r
  have hrd : r.depth = 0 := by omega
  have hnotlt : ¬ r.depth < r'.depth := by omega
  have hsp : r'.space = r.space := by
    rcases hdich with ⟨hs, _⟩ | hlt
    · exact hs
    · exact absurd hlt hnotlt
  have hpair : (r.block_id, r.space, p0.block_id) ∈ organize_pairs db := by
    simp only [organize_pairs, List.mem_flatMap]
    refine ⟨r, hr, ?_⟩
    rw [if_pos (by
      simp only [Bool.and_eq_true, decide_eq_true_eq]
      exact ⟨by omega, hrd⟩)]
    simp only [List.mem_map]
    refine ⟨p0, List.mem_filter.mpr ⟨hp0, ?_⟩, rfl⟩
    have h1 : p'.block_hash = p0.block_hash := hstep_p.1.2.1
    have h2 : r'.prev_block_hash = r.prev_block_hash := hcore_r.2.2.1
    simp only [decide_eq_true_eq]
    rw [← h1, ← h2, hhash]
  exact absurd (hbump_r ⟨p0.block_id, hpair⟩) hnotlt

/-- Witness for C1: the two-block graft scenario. -/
theorem organize_grafts_matched_orphan_roots_witness :
    organize graft_db = .ok graft_db_result ∧
    (∀ r' ∈ graft_db_result.blocks, 0 < r'.space → r'.depth = 0 →
      ∀ p' ∈ graft_db_result.blocks, p'.block_hash ≠ r'.prev_block_hash) :=
  ⟨by decide,
    organize_grafts_matched_orphan_roots graft_db graft_db_result (by decide)⟩

/-! ## Claim C8: which columns organize and validate write -/

/-- Counterexample for C8: `organize()` also updates `prev_block_id` (the
`point_prev_statement`), a block column outside the four forest
coordinates, `status` and the chains rows. -/
theorem organize_writes_prev_block_id :
    organize graft_db = .ok graft_db_result ∧
    graft_db.blocks.map (fun b => b.prev_block_id) = [none, none] ∧
    graft_db_result.blocks.map (fun b => b.prev_block_id) = [none, some 1] := by
  decide

/-- Claim C8 as amended: block rows are mutated only by the organizer,
which writes the forest coordinates (`space`, `depth`, `span_left`,
`span_right`) and `prev_block_id`, and by the validator, which writes only
`status` on block rows (besides the chains rows); every other block column
is preserved by `organize()` and `validate()`. -/
theorem organize_validate_frame :
    (∀ (db db' : DB), organize db = .ok db' →
      List.Forall₂ same_core db.blocks db'.blocks) ∧
    (∀ (dec : DB → BlockRow → Bool) (diff : Nat → Nat → Int) (db : DB),
      List.Forall₂ same_except_status db.blocks (validate dec diff db).blocks) := by
  constructor
  · intro db db' h
    exact (organize_loop_org_step _ _ _ h).imp fun a b hab => hab.1
  · intro dec diff db
    exact validate_loop_frame dec diff _ db

/-- Witness for C8 (amended) on the graft scenario. -/
theorem organize_validate_frame_witness :
    organize graft_db = .ok graft_db_result ∧
    List.Forall₂ same_core graft_db.blocks graft_db_result.blocks :=
  ⟨by decide, organize_validate_frame.1 graft_db graft_db_result (by decide)⟩

theorem filter_id_point_prev (p c x : Nat) (db : DB) :
    (point_prev p c db).blocks.filter (fun b => b.block_id = x) =
      (db.blocks.filter (fun b => b.block_id = x)).map
        (fun b => if b.block_id = c then { b with prev_block_id := some p }
          else b) := by
  unfold point_prev
  rw [List.filter_map]
  congr 1
  apply List.filter_congr
  intro b _
  by_cases hb : b.block_id = c
  · simp [hb, Function.comp]
  · simp [hb, Function.comp]

theorem get_block_width_point_prev (p c s d l r : Nat) (db : DB) :
    get_block_width (point_prev p c db) s d l r = get_block_width db s d l r := by
  unfold get_block_width point_prev
  have hany : (db.blocks.map fun b =>
      if b.block_id = c then { b with prev_block_id := some p } else b).any
        (fun b => b.space = s && d < b.depth && l ≤ b.span_left &&
          b.span_right ≤ r) =
      db.blocks.any (fun b => b.space = s && d < b.depth && l ≤ b.span_left &&
        b.span_right ≤ r) := by
    rw [List.any_map]
    congr 1
    funext b
    by_cases hb : b.block_id = c
    · simp [hb, Function.comp]
    · simp [hb, Function.comp]
  rw [hany]

/-! ## Claim C4: single-orphan graft under a childless leaf parent -/

/-- Claim C4: grafting a single-block orphan tree (width 1) under a
main-tree leaf parent with no children takes the no-rewrite path — the
orphan row becomes `(space 0, depth parent.depth + 1, span equal to the
parent's span)` (and records its `prev_block_id`), and every other block
row and every chains row (indeed the whole rest of the store) is left
unchanged. -/
theorem organize_single_orphan_graft
    (db : DB) (m o : BlockRow)
    (hm : m ∈ db.blocks) (ho : o ∈ db.blocks)
    (hnd : (db.blocks.map fun b => b.block_id).Nodup)
    (hpairs : organize_pairs db = [(o.block_id, o.space, m.block_id)])
    (hmspace : m.space = 0) (hmleaf : m.span_left = m.span_right)
    (hwidth : get_block_width db 0 m.depth m.span_left m.span_right = 0)
    (hospace : 0 < o.space) (hod : o.depth = 0)
    (hol : o.span_left = 0) (hor : o.span_right = 0)
    (honly : ∀ b ∈ db.blocks, b.space = o.space → b.block_id = o.block_id) :
    organize db = .ok { db with
      blocks := db.blocks.map fun b =>
        if b.block_id = o.block_id then
          { o with
            prev_block_id := some m.block_id, space := 0,
            depth := m.depth + 1, span_left := m.span_left,
            span_right := m.span_left }
        else b } := by
  have hmo : m ≠ o := by
    intro he
    rw [he] at hmspace
    omega
  have hneq : m.block_id ≠ o.block_id := by
    intro he
    exact hmo (List.inj_on_of_nodup_map hnd hm ho he)
  have hfm : db.blocks.filter (fun b => b.block_id = m.block_id) = [m] :=
    filter_key_single (fun b => b.block_id) db.blocks hnd m hm
  have hfo : db.blocks.filter (fun b => b.block_id = o.block_id) = [o] :=
    filter_key_single (fun b => b.block_id) db.blocks hnd o ho
  have hload1 : load_position_info (point_prev m.block_id o.block_id db)
      m.block_id = .ok (some (m.space, m.depth, m.span_left, m.span_right)) := by
    unfold load_position_info
    rw [filter_id_point_prev, hfm]
    simp [hneq, sql_row]
  have hload2 : load_span (point_prev m.block_id o.block_id db) o.block_id =
      .ok (some (0, 0)) := by
    unfold load_span
    rw [filter_id_point_prev, hfo]
    simp [sql_row, hol, hor]
  have hw' : get_block_width (point_prev m.block_id o.block_id db) m.space
      m.depth m.span_left m.span_right = 0 := by
    rw [get_block_width_point_prev, hmspace]
    exact hwidth
  unfold organize
  rw [hpairs]
  simp only [organize_loop, hload1, hload2, hw']
  rw [if_neg (by omega : ¬ 0 < 0)]
  have hres : reserve_branch_area m.space 0 m.span_left m.span_right
      (m.depth + 1) (0 - 0 + 1) (point_prev m.block_id o.block_id db) =
      point_prev m.block_id o.block_id db := by
    unfold reserve_branch_area
    rw [if_pos (by simp)]
  rw [hres]
  congr 1
  unfold position_child_branch point_prev
  congr 1
  rw [List.map_map]
  apply List.map_congr_left
  intro b hb
  by_cases hid : b.block_id = o.block_id
  · have hbo : b = o := List.inj_on_of_nodup_map hnd hb ho hid
    subst hbo
    simp only [Function.comp, if_pos hid]
    rw [if_pos (by simp)]
    simp [hmspace, hod, hol, hor, hmleaf]
  · simp only [Function.comp, if_neg hid]
    have hbs : ¬ b.space = o.space := fun hc => hid (honly b hb hc)
    rw [if_neg (by simpa using hbs)]

/-- Witness for C4: the two-block graft scenario, where the result is
`graft_db_result`. -/
theorem organize_single_orphan_graft_witness :
    mainRow ∈ graft_db.blocks ∧ orphanRow ∈ graft_db.blocks ∧
    organize graft_db = .ok { graft_db with
      blocks := graft_db.blocks.map fun b =>
        if b.block_id = orphanRow.block_id then
          { orphanRow with
            prev_block_id := some mainRow.block_id, space := 0,
            depth := mainRow.depth + 1, span_left := mainRow.span_left,
            span_right := mainRow.span_left }
        else b } :=
  ⟨by decide, by decide,
    organize_single_orphan_graft graft_db mainRow orphanRow
      (by decide) (by decide) (by decide) (by decide) (by decide) (by decide)
      (by decide) (by decide) (by decide) (by decide) (by decide)
      (by decide)⟩

/-! ## Claim C9: barrier debouncing -/

theorem raise_many_below (clearance : Nat) :
    ∀ n, n ≤ clearance →
      raise_many clearance n =
        ({ barrier_level := n, timer_started := decide (0 < n) }, 0)
  | 0, _ => by simp [raise_many, reset_state]
  | n + 1, h => by
      have ih := raise_many_below clearance n (Nat.le_of_succ_le h)
      simp only [raise_many, ih]
      cases n with
      | zero => simp [raise_barrier, Nat.not_lt.mpr h]
      | succ k => simp [raise_barrier, Nat.not_lt.mpr h]

/-- Claim C9: `raise_barrier()` increments the level; above the clearance
it resets and starts immediately; otherwise it arms the one-shot timer if
none is armed and does nothing more while one is; `reset_state()` zeros
the counter and clears (cancels) the timer; the defaults are 400 and
500 ms; a burst of `1 ≤ n ≤ clearance` calls starts nothing and leaves one
armed timer whose firing runs `start()` exactly once, while `clearance + 1`
rapid calls trigger exactly one immediate `start()` with no timer
pending. -/
theorem raise_barrier_debounce :
    (∀ clearance s,
      (clearance < s.barrier_level + 1 →
        raise_barrier clearance s = (reset_state, true)) ∧
      (s.barrier_level + 1 ≤ clearance → s.timer_started = false →
        raise_barrier clearance s =
          ({ barrier_level := s.barrier_level + 1, timer_started := true }, false)) ∧
      (s.barrier_level + 1 ≤ clearance → s.timer_started = true →
        raise_barrier clearance s =
          ({ barrier_level := s.barrier_level + 1, timer_started := true }, false))) ∧
    reset_state = { barrier_level := 0, timer_started := false } ∧
    barrier_clearance_default = 400 ∧ barrier_timeout_default_ms = 500 ∧
    (∀ aborted errored s,
      start_exec aborted errored s = (reset_state, !aborted && !errored)) ∧
    (∀ clearance n, 1 ≤ n → n ≤ clearance →
      raise_many clearance n = ({ barrier_level := n, timer_started := true }, 0) ∧
      start_exec false false (raise_many clearance n).1 = (reset_state, true)) ∧
    (∀ clearance, raise_many clearance (clearance + 1) = (reset_state, 1)) := by
  refine ⟨fun clearance s => ⟨?_, ?_, ?_⟩, rfl, rfl, rfl, fun _ _ _ => rfl, ?_, ?_⟩
  · intro h; simp [raise_barrier, h]
  · intro h ht; simp [raise_barrier, Nat.not_lt.mpr h, ht]
  · intro h ht; simp [raise_barrier, Nat.not_lt.mpr h, ht]
  · intro clearance n h1 h2
    have := raise_many_below clearance n h2
    rw [this]
    simp [start_exec, Nat.lt_of_lt_of_le Nat.zero_lt_one h1]
  · intro clearance
    have := raise_many_below clearance clearance (Nat.le_refl _)
    simp [raise_many, this, raise_barrier, Nat.lt_succ_self]

/-- Witness for C9 at `clearance = 400`, a burst of 10 calls and a burst of
401 calls. -/
theorem raise_barrier_debounce_witness :
    (1 ≤ 10 ∧ 10 ≤ 400) ∧
    (raise_many 400 10 = ({ barrier_level := 10, timer_started := true }, 0) ∧
      start_exec false false (raise_many 400 10).1 = (reset_state, true)) ∧
    raise_many 400 (400 + 1) = (reset_state, 1) :=
  ⟨⟨by decide, by decide⟩,
    raise_barrier_debounce.2.2.2.2.2.1 400 10 (by decide) (by decide),
    raise_barrier_debounce.2.2.2.2.2.2 400⟩

/-! ## Claim C5: median_time_past -/

/-- Claim C5: `median_time_past()` returns the `median_offset`-th row,
ascending by `when_created`, of the at most 11 branch-local blocks with
`info.depth - 11 ≤ depth < info.depth`, where the offset equals
`min(5, depth/2)`; in particular for `depth < 11` the offset is
`depth / 2`. -/
theorem median_time_past_matches_claim :
    ∀ (db : DB) (info : BlockInfo),
      median_time_past db info = median_time_past_claimed db info ∧
      (info.depth < 11 → median_offset info.depth = info.depth / 2) := by
  intro db info
  have hoff : median_offset info.depth = min 5 (info.depth / 2) := by
    unfold median_offset; split <;> omega
  constructor
  · unfold median_time_past median_time_past_claimed
    rw [hoff]
  · intro h; unfold median_offset; simp [h]

/-- Witness for C5: a genesis-plus-one block (depth 1) over a single
genesis row; the offset used is `1 / 2 = 0` and the median is genesis's
timestamp. -/
theorem median_time_past_matches_claim_witness :
    (1 : Nat) < 11 ∧
    median_time_past graft_db
        { block_id := 2, depth := 1, span_left := 0, span_right := 0,
          prev_block_id := 1 } =
      median_time_past_claimed graft_db
        { block_id := 2, depth := 1, span_left := 0, span_right := 0,
          prev_block_id := 1 } ∧
    median_offset 1 = 1 / 2 :=
  ⟨by decide,
    (median_time_past_matches_claim graft_db _).1,
    (median_time_past_matches_claim graft_db
      { block_id := 2, depth := 1, span_left := 0, span_right := 0,
        prev_block_id := 1 }).2 (by decide)⟩

/-! ## Claim C6: previous_block_bits -/

/-- Claim C6: `previous_block_bits()` returns
`bits_body ||| (bits_head <<< 24)` of the unique block at `depth - 1`
within the same branch (given the data-model bounds `bits_body < 2^24`,
`bits_head < 2^8`); when the query does not find exactly one row the
condition is fatal (an exception aborts the run with no mutation — the
reader is a pure query). -/
theorem previous_block_bits_unique_row :
    ∀ (db : DB) (info : BlockInfo),
      (∀ r, previous_block_rows db info = [r] →
        r.bits_body < 2 ^ 24 → r.bits_head < 2 ^ 8 →
        previous_block_bits db info = .ok (r.bits_body ||| (r.bits_head <<< 24))) ∧
      ((previous_block_rows db info).length ≠ 1 →
        previous_block_bits db info = .error ()) := by
  intro db info
  constructor
  · intro r hr hbody hhead
    have hval : u32 (r.bits_body + u32 (r.bits_head * 2 ^ 24)) =
        r.bits_body ||| (r.bits_head <<< 24) := by
      have h1 : u32 (r.bits_head * 2 ^ 24) = r.bits_head * 2 ^ 24 :=
        Nat.mod_eq_of_lt (by
          calc r.bits_head * 2 ^ 24 ≤ (2 ^ 8 - 1) * 2 ^ 24 :=
                Nat.mul_le_mul_right _ (by omega)
            _ < 2 ^ 32 := by norm_num)
      rw [h1]
      have h2 : r.bits_body + r.bits_head * 2 ^ 24 < 2 ^ 32 := by
        have : r.bits_head * 2 ^ 24 ≤ (2 ^ 8 - 1) * 2 ^ 24 :=
          Nat.mul_le_mul_right _ (by omega)
        omega
      rw [u32, Nat.mod_eq_of_lt h2, Nat.shiftLeft_eq, Nat.lor_comm, Nat.mul_comm,
        ← Nat.mul_add_lt_is_or hbody]
      omega
    have hred : previous_block_bits db info =
        .ok (u32 (r.bits_body + u32 (r.bits_head * 2 ^ 24))) := by
      unfold previous_block_bits
      rw [hr]
      rfl
    rw [hred, hval]
  · intro hlen
    match hrows : previous_block_rows db info with
    | [] => unfold previous_block_bits; rw [hrows]; rfl
    | [r] => rw [hrows] at hlen; simp at hlen
    | r :: s :: t => unfold previous_block_bits; rw [hrows]; rfl

/-- Witness for C6: the unique-row case on the grafted store and the
zero-row case on an empty branch position. -/
theorem previous_block_bits_unique_row_witness :
    (previous_block_rows graft_db
        { block_id := 2, depth := 1, span_left := 0, span_right := 0,
          prev_block_id := 1 } = [mainRow] ∧
      mainRow.bits_body < 2 ^ 24 ∧ mainRow.bits_head < 2 ^ 8 ∧
      previous_block_bits graft_db
          { block_id := 2, depth := 1, span_left := 0, span_right := 0,
            prev_block_id := 1 } =
        .ok (mainRow.bits_body ||| (mainRow.bits_head <<< 24))) ∧
    ((previous_block_rows graft_db
        { block_id := 9, depth := 7, span_left := 0, span_right := 0,
          prev_block_id := 1 }).length ≠ 1 ∧
      previous_block_bits graft_db
          { block_id := 9, depth := 7, span_left := 0, span_right := 0,
            prev_block_id := 1 } = .error ()) :=
  ⟨⟨by decide, by decide, by decide,
      (previous_block_bits_unique_row graft_db _).1 mainRow (by decide)
        (by decide) (by decide)⟩,
    ⟨by decide,
      (previous_block_bits_unique_row graft_db _).2 (by decide)⟩⟩

/-! ## Claim C2: coinbase maturity (code bug) -/

/-- Claim C2 (code bug): the previous transaction is a coinbase in the
branch-local block at depth 50 and the validated block has depth 100, so
`current.depth - prev.depth = 50 < coinbase_maturity = 100` and the claim
requires rejection; but `connect_input` computes the `size_t` difference
`previous_block_depth(...) - block_info_.depth = 50 - 100`, which
underflows to `2^64 - 50 ≥ coinbase_maturity`, and the input is
accepted. -/
theorem connect_input_accepts_immature_coinbase :
    is_coinbase_transaction maturity_db 10 = true ∧
    previous_block_depth maturity_db maturity_info 10 = .ok 50 ∧
    maturity_info.depth - 50 < 100 ∧
    csub64 50 maturity_info.depth = 2 ^ 64 - 50 ∧
    connect_input pass_script 100 2100000000000000 maturity_db maturity_info
        11 spending_tx 0 0 = .ok (true, 50) := by
  decide

/-! ## Claim C7: money bounds in connect_input -/

/-- Claim C7: `connect_input` rejects whenever the referenced output's
value exceeds `max_money` and whenever the running accumulator plus that
value exceeds `max_money`; otherwise a passing input adds the output's
value to `value_in`.  The accumulator is assumed within `max_money` (the
code itself maintains this across passing calls) and `max_money < 2^63`
(the consensus constant is about `2.1 * 10^15`), which rules out 64-bit
wrap in the accumulation. -/
theorem connect_input_money_rules
    (rs : Script → Script → Transaction → Nat → Bool)
    (maturity max_money : Nat) (db : DB) (info : BlockInfo)
    (txid : Nat) (tx : Transaction) (idx value_in : Nat)
    (input : TransactionInput) (t : TxRow) (o : OutputRow)
    (b : Bool) (value_out : Nat)
    (hin : tx.inputs[idx]? = some input)
    (ht : db.transactions.filter (fun u => u.transaction_hash = input.hash) = [t])
    (ho : db.outputs.filter (fun u =>
        u.transaction_id = t.transaction_id &&
          u.index_in_parent = input.index) = [o])
    (hacc : value_in ≤ max_money) (hcap : max_money < 2 ^ 63)
    (hres : connect_input rs maturity max_money db info txid tx idx value_in =
      .ok (b, value_out)) :
    (max_money < o.value → b = false ∧ value_out = value_in) ∧
    (max_money < value_in + o.value → b = false) ∧
    (b = true → value_out = value_in + o.value) := by
  simp only [connect_input, hin, ht, ho, sql_row, bind, Except.bind] at hres
  by_cases hov : max_money < o.value
  · rw [if_pos hov] at hres
    simp only [pure, Except.pure, Except.ok.injEq, Prod.mk.injEq] at hres
    exact ⟨fun _ => ⟨hres.1.symm, hres.2.symm⟩,
      fun _ => hres.1.symm, fun hb => by rw [← hres.1] at hb; cases hb⟩
  · rw [if_neg hov] at hres
    have hsum : (value_in + o.value) % 2 ^ 64 = value_in + o.value :=
      Nat.mod_eq_of_lt (by omega)
    have hrest : ∀ (e : Except Unit (Bool × Nat)),
        e = (if !rs (select_script db o.script_id) input.input_script tx idx then
              Except.ok (false, value_in)
            else if search_double_spends db txid input idx then
              Except.ok (false, value_in)
            else if max_money < (value_in + o.value) % 2 ^ 64 then
              Except.ok (false, (value_in + o.value) % 2 ^ 64)
            else Except.ok (true, (value_in + o.value) % 2 ^ 64)) →
        e = .ok (b, value_out) →
        (max_money < o.value → b = false ∧ value_out = value_in) ∧
        (max_money < value_in + o.value → b = false) ∧
        (b = true → value_out = value_in + o.value) := by
      intro e he hres2
      rw [he] at hres2
      by_cases hscript : !rs (select_script db o.script_id) input.input_script tx idx
      · rw [if_pos hscript] at hres2
        simp only [pure, Except.pure, Except.ok.injEq, Prod.mk.injEq] at hres2
        exact ⟨fun hc => absurd hc hov, fun _ => hres2.1.symm,
          fun hb => by rw [← hres2.1] at hb; cases hb⟩
      · rw [if_neg hscript] at hres2
        by_cases hds : search_double_spends db txid input idx
        · rw [if_pos hds] at hres2
          simp only [pure, Except.pure, Except.ok.injEq, Prod.mk.injEq] at hres2
          exact ⟨fun hc => absurd hc hov, fun _ => hres2.1.symm,
            fun hb => by rw [← hres2.1] at hb; cases hb⟩
        · rw [if_neg hds] at hres2
          by_cases hcapd : max_money < (value_in + o.value) % 2 ^ 64
          · rw [if_pos hcapd] at hres2
            simp only [pure, Except.pure, Except.ok.injEq, Prod.mk.injEq] at hres2
            exact ⟨fun hc => absurd hc hov, fun _ => hres2.1.symm,
              fun hb => by rw [← hres2.1] at hb; cases hb⟩
          · rw [if_neg hcapd] at hres2
            simp only [pure, Except.pure, Except.ok.injEq, Prod.mk.injEq] at hres2
            rw [hsum] at hcapd
            exact ⟨fun hc => absurd hc hov,
              fun hc => absurd hc hcapd,
              fun _ => by rw [← hres2.2, hsum]⟩
    by_cases hcb : is_coinbase_transaction db t.transaction_id = true
    · rw [if_pos hcb] at hres
      cases hpd : previous_block_depth db info t.transaction_id with
      | error e =>
        simp only [hpd] at hres
        cases hres
      | ok pd =>
        simp only [hpd] at hres
        by_cases hmat : csub64 pd info.depth < maturity
        · rw [if_pos hmat] at hres
          simp only [pure, Except.pure, Except.ok.injEq, Prod.mk.injEq] at hres
          exact ⟨fun hc => absurd hc hov, fun _ => hres.1.symm,
            fun hb => by rw [← hres.1] at hb; cases hb⟩
        · rw [if_neg hmat] at hres
          exact hrest _ rfl hres
    · rw [if_neg hcb] at hres
      exact hrest _ rfl hres

/-- Witness for C7: concrete rejected oversized output. -/
theorem connect_input_money_rules_witness :
    ((0 : Nat) ≤ 100 ∧ (100 : Nat) < 2 ^ 63 ∧
      connect_input pass_script 100 100 money_db
          { block_id := 1, depth := 0, span_left := 0, span_right := 0,
            prev_block_id := 0 } 31 money_tx 0 0 = .ok (false, 0)) ∧
    ((100 < (150 : Nat) → false = false ∧ (0 : Nat) = 0) ∧
      (100 < 0 + (150 : Nat) → false = false) ∧
      (false = true → (0 : Nat) = 0 + 150)) :=
  ⟨⟨by decide, by decide, by decide⟩,
    connect_input_money_rules pass_script 0 100 money_db
      { block_id := 1, depth := 0, span_left := 0, span_right := 0,
        prev_block_id := 0 } 31 money_tx 0 0
      { hash := 400, index := 0, input_script := [], sequence := 0 }
      { transaction_id := 30, transaction_hash := 400, version := 1, locktime := 0 }
      { output_id := 80, transaction_id := 30, index_in_parent := 0,
        value := 150, script_id := 9 }
      false 0 (by decide) (by decide) (by decide) (by decide) (by decide)
      (by decide)⟩

/-! ## Claim C10: value_in on the failure paths -/

/-- Claim C10: when `connect_input` rejects because the accumulated input
value exceeds `max_money`, the by-ref `value_in` has already been
increased by the referenced output's value and is not restored; on every
earlier failure return (missing previous transaction or output, oversized
output value, immature coinbase, script failure, double spend) `value_in`
is returned unchanged.  The script-failure, double-spend and accumulation
cases are stated on the non-coinbase path; the coinbase path differs only
in the extra maturity test. -/
theorem connect_input_value_in_on_failure
    (rs : Script → Script → Transaction → Nat → Bool)
    (maturity max_money : Nat) (db : DB) (info : BlockInfo)
    (txid : Nat) (tx : Transaction) (idx value_in : Nat)
    (input : TransactionInput) (t : TxRow) (o : OutputRow) (pd : Nat)
    (hin : tx.inputs[idx]? = some input)
    (hacc : value_in ≤ max_money) (hcap : max_money < 2 ^ 63) :
    (db.transactions.filter (fun u => u.transaction_hash = input.hash) = [] →
      connect_input rs maturity max_money db info txid tx idx value_in =
        .ok (false, value_in)) ∧
    (db.transactions.filter (fun u => u.transaction_hash = input.hash) = [t] →
      (db.outputs.filter (fun u => u.transaction_id = t.transaction_id &&
          u.index_in_parent = input.index) = [] →
        connect_input rs maturity max_money db info txid tx idx value_in =
          .ok (false, value_in)) ∧
      (db.outputs.filter (fun u => u.transaction_id = t.transaction_id &&
          u.index_in_parent = input.index) = [o] →
        (max_money < o.value →
          connect_input rs maturity max_money db info txid tx idx value_in =
            .ok (false, value_in)) ∧
        (o.value ≤ max_money →
          (is_coinbase_transaction db t.transaction_id = true →
            previous_block_depth db info t.transaction_id = .ok pd →
            csub64 pd info.depth < maturity →
            connect_input rs maturity max_money db info txid tx idx value_in =
              .ok (false, value_in)) ∧
          (is_coinbase_transaction db t.transaction_id = false →
            (rs (select_script db o.script_id) input.input_script tx idx = false →
              connect_input rs maturity max_money db info txid tx idx value_in =
                .ok (false, value_in)) ∧
            (rs (select_script db o.script_id) input.input_script tx idx = true →
              (search_double_spends db txid input idx = true →
                connect_input rs maturity max_money db info txid tx idx value_in =
                  .ok (false, value_in)) ∧
              (search_double_spends db txid input idx = false →
                max_money < value_in + o.value →
                connect_input rs maturity max_money db info txid tx idx value_in =
                  .ok (false, value_in + o.value))))))) := by
  have hsum : (value_in + o.value) % 2 ^ 64 = value_in + o.value ∨
      max_money < o.value := by
    by_cases h : o.value ≤ max_money
    · exact Or.inl (Nat.mod_eq_of_lt (by omega))
    · exact Or.inr (by omega)
  constructor
  · intro ht
    simp only [connect_input, hin, ht, sql_row, bind, Except.bind]
  · intro ht
    constructor
    · intro ho
      simp only [connect_input, hin, ht, ho, sql_row, bind, Except.bind]
    · intro ho
      constructor
      · intro hov
        simp only [connect_input, hin, ht, ho, sql_row, bind, Except.bind,
          if_pos hov]
      · intro hov
        have hov' : ¬ max_money < o.value := by omega
        have hsum' : (value_in + o.value) % 2 ^ 64 = value_in + o.value :=
          Nat.mod_eq_of_lt (by omega)
        constructor
        · intro hcb hpd hmat
          simp only [connect_input, hin, ht, ho, sql_row]
          rw [if_neg hov', if_pos hcb]
          simp only [hpd]
          rw [if_pos hmat]
        · intro hcb
          constructor
          · intro hscript
            simp only [connect_input, hin, ht, ho, sql_row]
            rw [if_neg hov', if_neg (by simp [hcb]), if_pos (by simp [hscript])]
          · intro hscript
            constructor
            · intro hds
              simp only [connect_input, hin, ht, ho, sql_row]
              rw [if_neg hov', if_neg (by simp [hcb]),
                if_neg (by simp [hscript]), if_pos hds]
            · intro hds hover
              simp only [connect_input, hin, ht, ho, sql_row]
              rw [if_neg hov', if_neg (by simp [hcb]),
                if_neg (by simp [hscript]), if_neg (by simp [hds]), hsum',
                if_pos hover]

/-- Witness for C10: the accumulation reject returns `value_in = 120`
(already increased), on a store where the earlier checks pass. -/
theorem connect_input_value_in_on_failure_witness :
    ((60 : Nat) ≤ 100 ∧ (100 : Nat) < 2 ^ 63 ∧
      overflow_tx.inputs[0]? =
        some { hash := 300, index := 0, input_script := [], sequence := 0 }) ∧
    connect_input pass_script 0 100 overflow_db
        { block_id := 1, depth := 0, span_left := 0, span_right := 0,
          prev_block_id := 0 } 21 overflow_tx 0 60 = .ok (false, 60 + 60) :=
  ⟨⟨by decide, by decide, by decide⟩,
    ((((connect_input_value_in_on_failure pass_script 0 100 overflow_db
        { block_id := 1, depth := 0, span_left := 0, span_right := 0,
          prev_block_id := 0 } 21 overflow_tx 0 60
        { hash := 300, index := 0, input_script := [], sequence := 0 }
        { transaction_id := 20, transaction_hash := 300, version := 1,
          locktime := 0 }
        { output_id := 70, transaction_id := 20, index_in_parent := 0,
          value := 60, script_id := 9 }
        0 (by decide) (by decide) (by decide)).2 (by decide)).2
        (by decide)).2 (by decide)).2 (by decide) |>.2 (by decide) |>.2
      (by decide) (by decide)⟩

/-! ## Claim C3: delete_branch -/

/-- Counterexample for C3: deleting the whole forked subtree under the
parent (`delete_branch(0, 1, 0, 1)`) subtracts only the difficulty of the
valid blocks on the surviving chain `span_left = 0` (work 1, the left
leaf), not the deleted subtree's summed valid-block difficulty (work 2:
both leaves), so chain 0 ends at work `10 - 1`, not `10 - 2`. -/
theorem delete_branch_unwind_not_subtree :
    (delete_branch unit_diff 0 1 0 1 fork_db).chains =
      [{ chain_id := 0, work := 10 - 1, depth := 1 }] ∧
    deleted_subtree_difficulty unit_diff 0 1 0 1 fork_db = 2 ∧
    (delete_branch unit_diff 0 1 0 1 fork_db).chains ≠
      [{ chain_id := 0, work := 10 - 2, depth := 1 }] := by
  decide

/-- Claim C3 as amended: `delete_branch(space, depth, span_left,
span_right)` branches on whether a row exists at `depth - 1` in the same
space with exactly the span `[span_left, span_right]`: if none exists the
offset is the subtree width and chains `[span_left, span_right]` are
deleted; if one exists the offset is `width - 1`, chains
`[span_left + 1, span_right]` are deleted, and `unwind_chain` subtracts
from `chain_id = span_left` the summed difficulty of the valid main-tree
blocks at `depth ≥ depth` whose span contains `span_left` (not the whole
deleted subtree's); afterwards surviving chain ids above `span_right` are
shifted down by the offset, the subtree's block rows are deleted, and in
the same space `span_left` values `> span_right` and `span_right` values
`≥ span_right` are decremented by the offset. -/
theorem delete_branch_behaviour (diff : Nat → Nat → Int)
    (space depth sl sr : Nat) (db : DB) (hsl : sl ≤ sr) :
    let lonely := db.blocks.any fun b =>
      b.space = space && b.depth + 1 = depth && b.span_left = sl &&
        b.span_right = sr
    let width := sr - sl + 1
    let offset := if lonely then width - 1 else width
    let del_lo := if lonely then sl + 1 else sl
    let undone : Int := (db.blocks.filter fun b =>
      b.space = 0 && depth ≤ b.depth && b.span_left ≤ sl && sl ≤ b.span_right &&
        b.status = Status.valid).foldr
      (fun b acc => diff b.bits_head b.bits_body + acc) 0
    (delete_branch diff space depth sl sr db).chains =
      (db.chains.filter fun c => !(del_lo ≤ c.chain_id && c.chain_id ≤ sr)).map
        (fun c =>
          let c1 := if sr < c.chain_id then
              { c with chain_id := c.chain_id - offset } else c
          if lonely && c1.chain_id = sl then { c1 with work := c1.work - undone }
          else c1) ∧
    (delete_branch diff space depth sl sr db).blocks =
      (db.blocks.filter fun b => !(b.space = space && depth ≤ b.depth &&
          sl ≤ b.span_left && b.span_right ≤ sr)).map
        (fun b =>
          let b1 := if b.space = space && sr < b.span_left then
              { b with span_left := b.span_left - offset } else b
          if b1.space = space && sr ≤ b1.span_right then
            { b1 with span_right := b1.span_right - offset } else b1) := by
  have harith : sr + 1 - sl = sr - sl + 1 := by omega
  have harith2 : sr + 1 - (sl + 1) = sr - sl + 1 - 1 := by omega
  cases hl : db.blocks.any fun b =>
      b.space = space && b.depth + 1 = depth && b.span_left = sl &&
        b.span_right = sr with
  | false =>
    constructor
    · simp only [delete_branch, delete_chains, hl, Bool.false_eq_true,
        if_false, Bool.false_and, harith]
    · simp only [delete_branch, delete_chains, hl, Bool.false_eq_true,
        if_false, List.map_map, harith]
      rfl
  | true =>
    constructor
    · simp only [delete_branch, delete_chains, unwind_chain, hl, harith2,
        List.map_map]
      simp [Function.comp, decide_eq_true_eq]
    · simp only [delete_branch, delete_chains, unwind_chain, hl, List.map_map]
      simp [Function.comp, decide_eq_true_eq]

/-- Witness for the amended C3 on the fork store. -/
theorem delete_branch_behaviour_witness :
    (0 : Nat) ≤ 1 ∧
    ((delete_branch unit_diff 0 1 0 1 fork_db).chains =
        (fork_db.chains.filter fun c => !(0 + 1 ≤ c.chain_id && c.chain_id ≤ 1)).map
          (fun c =>
            let c1 := if 1 < c.chain_id then
                { c with chain_id := c.chain_id - (1 - 0 + 1 - 1) } else c
            if true && c1.chain_id = 0 then
              { c1 with work := c1.work -
                ((fork_db.blocks.filter fun b =>
                  b.space = 0 && 1 ≤ b.depth && b.span_left ≤ 0 && 0 ≤ b.span_right &&
                    b.status = Status.valid).foldr
                  (fun b acc => unit_diff b.bits_head b.bits_body + acc) 0) }
            else c1)) :=
  ⟨by decide, by
    have h := delete_branch_behaviour unit_diff 0 1 0 1 fork_db (by decide)
    have hl : (fork_db.blocks.any fun b =>
        b.space = 0 && b.depth + 1 = 1 && b.span_left = 0 &&
          b.span_right = 1) = true := by decide
    simpa [hl] using h.1⟩

end PgChain
